import Mathlib

/-!
Verification of the epoch batching and iteration engine of StackingBERT
(fairseq/data/data_utils.py and fairseq/data/iterators.py).

The Python code is shallowly embedded: generators become functions returning
lists, stateful iterator objects become structures with explicit state, and
the process-global NumPy random generator becomes an explicit state value of
an abstract type S threaded through the operations, together with a record
RNG S packaging the two primitives the code uses (np.random.seed and
np.random.shuffle).  Collation of a batch of indices into tensors is an
external collaborator and is not modelled: the iterators here yield the
batches of example indices themselves.
-/

namespace StackingBERT

/-- Maximum of a list of naturals, 0 for the empty list.  This matches
Python's idiom "max(xs) if len(xs) > 0 else 0" used in batch_by_size,
since all sizes are nonnegative. -/
def listMax (l : List Nat) : Nat := l.foldr max 0

@[simp] theorem listMax_nil : listMax [] = 0 := rfl

@[simp] theorem listMax_cons (a : Nat) (l : List Nat) :
    listMax (a :: l) = max a (listMax l) := rfl

theorem listMax_append (l₁ l₂ : List Nat) :
    listMax (l₁ ++ l₂) = max (listMax l₁) (listMax l₂) := by
  induction l₁ with
  | nil => simp
  | cons a l ih => simp [ih, Nat.max_assoc]

@[simp] theorem listMax_singleton (a : Nat) : listMax [a] = a := by
  simp [listMax]

/-- Embedding of the closure is_batch_full from batch_by_size
(data_utils.py lines 168-175).  max_tokens and max_sentences are None or an
integer in Python (None becomes float Inf in the comparisons, which makes
both tests false); here they are Options and the None case of each test is
false. -/
def is_batch_full (max_tokens max_sentences : Option Nat)
    (batch : List Nat) (num_tokens : Nat) : Bool :=
  if batch.length = 0 then false
  else if some batch.length = max_sentences then true
  else if (match max_tokens with
           | none => false
           | some mt => decide (mt < num_tokens)) then true
  else false

/-- Loop of batch_by_size (data_utils.py lines 177-197): the state is the
candidate batch, the list of sizes of its elements plus the pending index
(sample_lens is appended before the fullness test in the source), and the
running maximum size sample_len. -/
def batch_by_size_go (num_tokens_fn : Nat → Nat)
    (max_tokens max_sentences : Option Nat) (bsz_mult : Nat) :
    List Nat → List Nat → Nat → List Nat → List (List Nat)
  | batch, _, _, [] =>
      if batch.length > 0 then [batch] else []
  | batch, sample_lens, sample_len, idx :: rest =>
      let sample_lens1 := sample_lens ++ [num_tokens_fn idx]
      let sample_len1 := max sample_len (num_tokens_fn idx)
      let num_tokens := (batch.length + 1) * sample_len1
      if is_batch_full max_tokens max_sentences batch num_tokens then
        let mod_len := max (bsz_mult * (batch.length / bsz_mult))
                           (batch.length % bsz_mult)
        batch.take mod_len ::
          batch_by_size_go num_tokens_fn max_tokens max_sentences bsz_mult
            (batch.drop mod_len ++ [idx]) (sample_lens1.drop mod_len)
            (if (sample_lens1.drop mod_len).length > 0 then
               listMax (sample_lens1.drop mod_len) else 0) rest
      else
        batch_by_size_go num_tokens_fn max_tokens max_sentences bsz_mult
          (batch ++ [idx]) sample_lens1 sample_len1 rest

/-- Embedding of batch_by_size (data_utils.py lines 143-197): yields
mini-batches of indices bucketed by size; returned as the list of yielded
batches. -/
def batch_by_size (indices : List Nat) (num_tokens_fn : Nat → Nat)
    (max_tokens max_sentences : Option Nat)
    (required_batch_size_multiple : Nat) : List (List Nat) :=
  batch_by_size_go num_tokens_fn max_tokens max_sentences
    required_batch_size_multiple [] [] 0 indices

/-- Embedding of CountingIterator (iterators.py lines 17-50): a wrapper
around a finite sequence maintaining the iteration count.  The generator
produced by iter(self) is represented by the pair (iterable, count): the
elements not yet consumed are iterable.drop count. -/
structure CountingIterator (α : Type) where
  iterable : List α
  count : Nat
  deriving DecidableEq, Repr

namespace CountingIterator

/-- CountingIterator.__init__: count starts at 0. -/
def new {α : Type} (iterable : List α) : CountingIterator α :=
  { iterable := iterable, count := 0 }

/-- CountingIterator.__len__ = len(self.iterable). -/
def len {α : Type} (it : CountingIterator α) : Nat := it.iterable.length

/-- One step of the generator in CountingIterator.__iter__ / __next__:
yields the next unconsumed element and increments count, or signals
StopIteration (none) when the underlying sequence is exhausted. -/
def next? {α : Type} (it : CountingIterator α) : Option (α × CountingIterator α) :=
  match it.iterable.drop it.count with
  | [] => none
  | x :: _ => some (x, { it with count := it.count + 1 })

/-- CountingIterator.has_next: count < len(self). -/
def has_next {α : Type} (it : CountingIterator α) : Bool :=
  decide (it.count < it.len)

/-- CountingIterator.skip(n): next(islice(self.itr, n, n), None) advances
the generator by n elements, silently stopping early at exhaustion, and
never raises (the trailing None default absorbs StopIteration). -/
def skip {α : Type} : CountingIterator α → Nat → CountingIterator α
  | it, 0 => it
  | it, n + 1 =>
      match it.next? with
      | none => it
      | some (_, it') => skip it' n

/-- Consuming n elements through repeated next() calls, returning the
yielded elements and the final iterator state. -/
def consume {α : Type} : CountingIterator α → Nat → List α × CountingIterator α
  | it, 0 => ([], it)
  | it, n + 1 =>
      match it.next? with
      | none => ([], it)
      | some (x, it') =>
          let r := consume it' n
          (x :: r.1, r.2)

/-- The elements the iterator will still yield. -/
def remaining {α : Type} (it : CountingIterator α) : List α :=
  it.iterable.drop it.count

theorem skip_iterable {α : Type} (n : Nat) (it : CountingIterator α) :
    (it.skip n).iterable = it.iterable := by
  induction n generalizing it with
  | zero => rfl
  | succ n ih =>
      unfold skip next?
      cases h : it.iterable.drop it.count with
      | nil => rfl
      | cons x xs => exact ih _

theorem skip_count {α : Type} (n : Nat) (it : CountingIterator α)
    (h : it.count ≤ it.iterable.length) :
    (it.skip n).count = min (it.count + n) it.iterable.length := by
  induction n generalizing it with
  | zero =>
      simpa [skip] using (Nat.min_eq_left h).symm
  | succ n ih =>
      unfold skip next?
      cases hd : it.iterable.drop it.count with
      | nil =>
          have hlen : it.iterable.length ≤ it.count := by
            have := congrArg List.length hd
            simpa [Nat.sub_eq_zero_iff_le] using this
          have hc : it.count = it.iterable.length := Nat.le_antisymm h hlen
          simp [hc]
      | cons x xs =>
          have hlt : it.count < it.iterable.length := by
            by_contra hge
            have : it.iterable.drop it.count = [] :=
              List.drop_eq_nil_of_le (Nat.le_of_not_lt hge)
            simp [this] at hd
          have := ih { it with count := it.count + 1 } hlt
          simp only at this
          rw [this]
          omega

theorem consume_snd {α : Type} (n : Nat) (it : CountingIterator α) :
    (it.consume n).2 = it.skip n := by
  induction n generalizing it with
  | zero => rfl
  | succ n ih =>
      unfold consume skip
      cases h : it.next? with
      | none => rfl
      | some p => simp [ih]

end CountingIterator

/-- Embedding of itertools.islice(l, start, len(l), step): every step-th
element of l starting at offset start, up to the end of the list. -/
def isliceStep {α : Type} (step : Nat) : List α → Nat → List α
  | [], _ => []
  | a :: rest, 0 => a :: isliceStep step rest (step - 1)
  | _ :: rest, s + 1 => isliceStep step rest s

/-- Embedding of the second components of
itertools.zip_longest(range(n), l, fillvalue=fill): a sequence of length
max n (len l) whose k-th element is l[k] when in range and fill past the
end of l. -/
def zipLongestSnd {α : Type} (n : Nat) (l : List α) (fill : α) : List α :=
  (List.range (max n l.length)).map (fun k => l.getD k fill)

/-- Sharded length computed in ShardedIterator.__init__ (iterators.py
lines 199-201): len // num_shards, plus one when the remainder is
positive. -/
def shardedLen (total num_shards : Nat) : Nat :=
  total / num_shards + (if total % num_shards > 0 then 1 else 0)

/-- The sequence of items yielded by ShardedIterator (iterators.py lines
184-216): zip_longest of range(sharded_len) with
islice(iterable, shard_id, len(iterable), num_shards), keeping the second
components. -/
def shardedList {α : Type} (l : List α) (num_shards shard_id : Nat)
    (fill : α) : List α :=
  zipLongestSnd (shardedLen l.length num_shards)
    (isliceStep num_shards l shard_id) fill

/-- ShardedIterator.__init__ raises ValueError unless
0 <= shard_id < num_shards; with Nat indices, only the upper bound can
fail.  none models the raised ValueError. -/
def ShardedIterator.make {α : Type} (l : List α) (num_shards shard_id : Nat)
    (fill : α) : Option (List α) :=
  if shard_id < num_shards then some (shardedList l num_shards shard_id fill)
  else none

theorem isliceStep_get? {α : Type} (step : Nat) (hstep : 1 ≤ step)
    (l : List α) : ∀ (s k : Nat),
    (isliceStep step l s).get? k = l.get? (s + k * step) := by
  induction l with
  | nil => intro s k; simp [isliceStep]
  | cons a rest ih =>
      intro s k
      cases s with
      | zero =>
          cases k with
          | zero => simp [isliceStep]
          | succ k =>
              have h1 : (isliceStep step (a :: rest) 0).get? (k + 1) =
                  (isliceStep step rest (step - 1)).get? k := by
                simp [isliceStep]
              rw [h1, ih (step - 1) k]
              have h2 : 0 + (k + 1) * step = (step - 1 + k * step) + 1 := by
                have hk : (k + 1) * step = k * step + step := Nat.succ_mul k step
                omega
              rw [h2]
              rfl
      | succ s =>
          have h1 : (isliceStep step (a :: rest) (s + 1)).get? k =
              (isliceStep step rest s).get? k := by
            simp [isliceStep]
          rw [h1, ih s k]
          have h2 : s + 1 + k * step = (s + k * step) + 1 := by omega
          rw [h2]
          rfl

theorem isliceStep_length {α : Type} (step : Nat) (hstep : 1 ≤ step)
    (l : List α) : ∀ s : Nat,
    (isliceStep step l s).length = (l.length - s + step - 1) / step := by
  induction l with
  | nil =>
      intro s
      have h1 : ([] : List α).length - s + step - 1 = step - 1 := by
        simp
      rw [h1]
      simp [isliceStep, Nat.div_eq_of_lt (by omega : step - 1 < step)]
  | cons a rest ih =>
      intro s
      cases s with
      | zero =>
          have h1 : (isliceStep step (a :: rest) 0).length =
              (isliceStep step rest (step - 1)).length + 1 := by
            simp [isliceStep]
          rw [h1, ih (step - 1)]
          have h2 : (a :: rest).length - 0 + step - 1 =
              rest.length + step := by
            rw [List.length_cons]; omega
          rw [h2, Nat.add_div_right _ (by omega : 0 < step)]
          rcases le_or_lt (step - 1) rest.length with hle | hlt
          · have h3 : rest.length - (step - 1) + step - 1 = rest.length := by
              omega
            rw [h3]
          · have h3 : rest.length - (step - 1) + step - 1 = step - 1 := by
              omega
            rw [h3, Nat.div_eq_of_lt (by omega : step - 1 < step),
                Nat.div_eq_of_lt (by omega : rest.length < step)]
      | succ s =>
          have h1 : (isliceStep step (a :: rest) (s + 1)).length =
              (isliceStep step rest s).length := by
            simp [isliceStep]
          rw [h1, ih s]
          have h2 : (a :: rest).length - (s + 1) + step - 1 =
              rest.length - s + step - 1 := by
            rw [List.length_cons]; omega
          rw [h2]

theorem shardedLen_eq_ceil (total n : Nat) (hn : 1 ≤ n) :
    shardedLen total n = (total + n - 1) / n := by
  unfold shardedLen
  rcases Nat.eq_zero_or_pos (total % n) with h0 | hpos
  · have hd : n ∣ total := Nat.dvd_of_mod_eq_zero h0
    obtain ⟨q, hq⟩ := hd
    subst hq
    have h1 : n * q + n - 1 = n * q + (n - 1) := by omega
    rw [h1, Nat.mul_add_div (by omega : 0 < n),
        Nat.div_eq_of_lt (by omega : n - 1 < n),
        Nat.mul_div_cancel_left _ (by omega : 0 < n)]
    simp [h0]
  · have hq := Nat.div_add_mod total n
    set q := total / n with hqdef
    set r := total % n with hrdef
    have hr : r < n := Nat.mod_lt _ (by omega)
    have hexp : n * (q + 1) = n * q + n := by ring
    have h1 : total + n - 1 = n * (q + 1) + (r - 1) := by omega
    rw [h1, Nat.mul_add_div (by omega : 0 < n),
        Nat.div_eq_of_lt (by omega : r - 1 < n)]
    simp [hpos]

theorem shardedList_length {α : Type} (l : List α) (n sid : Nat)
    (fill : α) (hn : 1 ≤ n) :
    (shardedList l n sid fill).length = shardedLen l.length n := by
  unfold shardedList zipLongestSnd
  rw [List.length_map, List.length_range]
  have hle : (isliceStep n l sid).length ≤ shardedLen l.length n := by
    rw [isliceStep_length n hn l sid, shardedLen_eq_ceil _ n hn]
    apply Nat.div_le_div_right
    omega
  exact Nat.max_eq_left hle

theorem shardedList_get? {α : Type} (l : List α) (n sid : Nat)
    (fill : α) (hn : 1 ≤ n) (k : Nat) (hk : k < shardedLen l.length n) :
    (shardedList l n sid fill).get? k =
      some ((l.get? (sid + k * n)).getD fill) := by
  unfold shardedList zipLongestSnd
  have hk' : k < max (shardedLen l.length n) (isliceStep n l sid).length :=
    lt_of_lt_of_le hk (Nat.le_max_left _ _)
  rw [List.get?_map]
  rw [List.get?_range hk']
  simp only [Option.map_some']
  congr 1
  rw [List.getD_eq_getD_get?, isliceStep_get? n hn l sid k]

/-- Abstract model of the process-global NumPy random generator: S is the
type of global generator states, seed_fn models np.random.seed and
shuffle_fn models np.random.shuffle on a list of batches (the shuffled
list together with the advanced generator state). -/
structure RNG (S : Type) where
  seed_fn : Nat → S
  shuffle_fn : List (List Nat) → S → List (List Nat) × S

/-- Embedding of the numpy_seed context manager (data_utils.py lines
43-55): with a None seed the body runs untouched; otherwise the current
global state is saved, the generator is seeded, the body runs, and the
saved state is restored afterward (the restore sits in a finally block, so
it also happens when the body raises: instantiate A with an Except type to
model a raising body). -/
def numpy_seed {S A : Type} (seed_fn : Nat → S) (seed : Option Nat)
    (body : S → A × S) (g : S) : A × S :=
  match seed with
  | none => body g
  | some sd =>
      let state := g
      let r := body (seed_fn sd)
      (r.1, state)

/-- Embedding of EpochBatchIterator (iterators.py lines 53-151).  The
dataset and collate_fn collaborators are external and do not affect which
index batches are yielded in which order, so they are not carried; the
torch DataLoader wrapping in _get_iterator_for_epoch is modelled as the
identity on the sharded batch sequence.  The fields _cur_epoch_itr and
_next_epoch_itr are the Python instance attributes of the same names. -/
structure EpochBatchIterator where
  frozen_batches : List (List Nat)
  seed : Nat
  num_shards : Nat
  shard_id : Nat
  epoch : Nat
  _cur_epoch_itr : Option (CountingIterator (List Nat))
  _next_epoch_itr : Option (CountingIterator (List Nat))
  deriving DecidableEq, Repr

/-- state_dict() payload (iterators.py lines 121-126).  load_state_dict
also reads an optional shuffle key with default True; state_dict never
writes that key, hence the Option. -/
structure StateDict where
  epoch : Nat
  iterations_in_epoch : Nat
  shuffle : Option Bool
  deriving DecidableEq, Repr

namespace EpochBatchIterator

/-- EpochBatchIterator.__init__ (iterators.py lines 77-88): freezes the
batch plan, stores the shard descriptor and seed, and starts at epoch 0
with no active and no pending iterator. -/
def init (batch_sampler : List (List Nat)) (seed num_shards shard_id : Nat) :
    EpochBatchIterator :=
  { frozen_batches := batch_sampler
    seed := seed
    num_shards := num_shards
    shard_id := shard_id
    epoch := 0
    _cur_epoch_itr := none
    _next_epoch_itr := none }

/-- EpochBatchIterator._get_iterator_for_epoch (iterators.py lines
138-151): with shuffle, the frozen plan is permuted by the global
generator inside numpy_seed(seed + epoch); the result is sharded with
fill value [] and wrapped in a CountingIterator. -/
def get_iterator_for_epoch {S : Type} (rng : RNG S) (e : EpochBatchIterator)
    (epoch : Nat) (shuffle : Bool) (g : S) :
    CountingIterator (List Nat) × S :=
  if shuffle then
    let r := numpy_seed rng.seed_fn (some (e.seed + epoch))
      (fun s => rng.shuffle_fn e.frozen_batches s) g
    (CountingIterator.new
      (shardedList r.1 e.num_shards e.shard_id []), r.2)
  else
    (CountingIterator.new
      (shardedList e.frozen_batches e.num_shards e.shard_id []), g)

/-- EpochBatchIterator.next_epoch_itr (iterators.py lines 93-106): a
pending lookahead iterator, if any, becomes the active one; otherwise the
epoch counter is incremented and a fresh iterator is derived.  The
iterator returned by the Python method is the _cur_epoch_itr field of the
returned state. -/
def next_epoch_itr {S : Type} (rng : RNG S) (e : EpochBatchIterator)
    (shuffle : Bool) (g : S) : EpochBatchIterator × S :=
  match e._next_epoch_itr with
  | some it =>
      ({ e with _cur_epoch_itr := some it, _next_epoch_itr := none }, g)
  | none =>
      let r := e.get_iterator_for_epoch rng (e.epoch + 1) shuffle g
      ({ e with epoch := e.epoch + 1, _cur_epoch_itr := some r.1 }, r.2)

/-- EpochBatchIterator.iterations_in_epoch (iterators.py lines 112-119). -/
def iterations_in_epoch (e : EpochBatchIterator) : Nat :=
  match e._cur_epoch_itr with
  | some it => it.count
  | none =>
      match e._next_epoch_itr with
      | some it => it.count
      | none => 0

/-- EpochBatchIterator.state_dict (iterators.py lines 121-126): records
epoch and iterations_in_epoch; no shuffle key is written. -/
def state_dict (e : EpochBatchIterator) : StateDict :=
  { epoch := e.epoch
    iterations_in_epoch := e.iterations_in_epoch
    shuffle := none }

/-- EpochBatchIterator.load_state_dict (iterators.py lines 128-136): sets
epoch from the state, and when iterations_in_epoch is positive derives the
epoch's iterator (with the shuffle key of the state, defaulting to True)
and, when the skip count is strictly below that iterator's length, stores
it fast-forwarded as the pending lookahead. -/
def load_state_dict {S : Type} (rng : RNG S) (e : EpochBatchIterator)
    (sd : StateDict) (g : S) : EpochBatchIterator × S :=
  let e1 := { e with epoch := sd.epoch }
  let itr_pos := sd.iterations_in_epoch
  if 0 < itr_pos then
    let r := e1.get_iterator_for_epoch rng e1.epoch (sd.shuffle.getD true) g
    if itr_pos < r.1.len then
      ({ e1 with _next_epoch_itr := some (r.1.skip itr_pos) }, r.2)
    else
      (e1, r.2)
  else
    (e1, g)

/-- Consuming n batches from the active epoch iterator through its next()
method, returning the yielded batches. -/
def consume (e : EpochBatchIterator) (n : Nat) :
    List (List Nat) × EpochBatchIterator :=
  match e._cur_epoch_itr with
  | none => ([], e)
  | some it =>
      let r := it.consume n
      (r.1, { e with _cur_epoch_itr := some r.2 })

/-- The batches the active epoch iterator will still yield. -/
def cur_remaining (e : EpochBatchIterator) : List (List Nat) :=
  match e._cur_epoch_itr with
  | none => []
  | some it => it.remaining

/-- Iterated next_epoch_itr: one call per element of gs, each call run
against an arbitrary ambient global generator state (capturing both
in-process successive calls and calls after process restarts). -/
def advance {S : Type} (rng : RNG S) (shuffle : Bool) :
    EpochBatchIterator → List S → EpochBatchIterator
  | e, [] => e
  | e, g :: gs => advance rng shuffle (e.next_epoch_itr rng shuffle g).1 gs

/-- Checkpoint-resume scenario: run an epoch from a fresh iterator,
consume k batches, snapshot state_dict, rebuild a fresh iterator from the
same constructor arguments, load the snapshot and begin the next epoch.
Returns the interrupted original and the resumed iterator. -/
def resume_scenario {S : Type} (rng : RNG S) (frozen : List (List Nat))
    (seed ns sid : Nat) (sh : Bool) (k : Nat) (g0 g1 g2 : S) :
    EpochBatchIterator × EpochBatchIterator :=
  let e0 := init frozen seed ns sid
  let eA := (e0.next_epoch_itr rng sh g0).1
  let eAk := (eA.consume k).2
  let f0 := init frozen seed ns sid
  let eR := ((f0.load_state_dict rng eAk.state_dict g1).1.next_epoch_itr
    rng sh g2).1
  (eAk, eR)

end EpochBatchIterator

/-- A concrete instance of the abstract generator model, used for concrete
evaluations: the state is a natural number, seeding stores the seed, and
the shuffle reverses the plan exactly when the state is odd. -/
def exRNG : RNG Nat :=
  { seed_fn := fun n => n
    shuffle_fn := fun l s => (if s % 2 = 0 then l else l.reverse, s) }

theorem batch_by_size_go_join (f : Nat → Nat) (mt ms : Option Nat) (m : Nat) :
    ∀ (rest batch sl : List Nat) (slen : Nat),
      (batch_by_size_go f mt ms m batch sl slen rest).join = batch ++ rest := by
  intro rest
  induction rest with
  | nil =>
      intro batch sl slen
      by_cases h : batch.length > 0
      · simp [batch_by_size_go, h]
      · have hb : batch = [] := List.length_eq_zero.mp (by omega)
        simp [batch_by_size_go, hb]
  | cons idx rest ih =>
      intro batch sl slen
      unfold batch_by_size_go
      by_cases h : is_batch_full mt ms batch
          ((batch.length + 1) * max slen (f idx)) = true
      · simp only [h, if_true, List.join_cons, ih]
        rw [← List.append_assoc, ← List.append_assoc, List.take_append_drop]
        simp
      · simp only [h, Bool.false_eq_true, if_false, ih]
        simp

/-- C1: conservation of batch_by_size.  The concatenation of all yielded
batches is the input index list itself, hence in particular the multiset
of indices across batches is the input multiset, with nothing dropped or
duplicated. -/
theorem batch_by_size_conservation (indices : List Nat) (f : Nat → Nat)
    (mt ms : Option Nat) (m : Nat) (hm : 1 ≤ m) :
    Multiset.ofList (batch_by_size indices f mt ms m).join =
      Multiset.ofList indices := by
  unfold batch_by_size
  rw [batch_by_size_go_join]
  rfl

theorem batch_by_size_conservation_witness :
    Multiset.ofList (batch_by_size [0, 1, 2, 3, 4, 5, 6, 7, 8, 9]
        (fun i => i % 3 + 1) (some 6) none 1).join =
      Multiset.ofList [0, 1, 2, 3, 4, 5, 6, 7, 8, 9] :=
  batch_by_size_conservation _ _ _ _ _ (by decide)

theorem batch_by_size_go_ne_nil (f : Nat → Nat) (mt ms : Option Nat)
    (m : Nat) :
    ∀ (rest batch sl : List Nat) (slen : Nat), batch ≠ [] →
      batch_by_size_go f mt ms m batch sl slen rest ≠ [] := by
  intro rest
  induction rest with
  | nil =>
      intro batch sl slen hb
      simp [batch_by_size_go, List.length_pos.mpr hb]
  | cons idx rest ih =>
      intro batch sl slen hb
      unfold batch_by_size_go
      by_cases h : is_batch_full mt ms batch
          ((batch.length + 1) * max slen (f idx)) = true
      · simp [h]
      · simp only [h, Bool.false_eq_true, if_false]
        exact ih _ _ _ (by simp)

theorem batch_by_size_go_multiple (f : Nat → Nat) (mt ms : Option Nat)
    (m : Nat) (hm : 1 ≤ m) :
    ∀ (rest batch sl : List Nat) (slen : Nat),
      ∀ b ∈ (batch_by_size_go f mt ms m batch sl slen rest).dropLast,
        b.length % m = 0 ∨ b.length < m := by
  intro rest
  induction rest with
  | nil =>
      intro batch sl slen b hb
      by_cases h : batch.length > 0 <;> simp [batch_by_size_go, h] at hb
  | cons idx rest ih =>
      intro batch sl slen b hb
      unfold batch_by_size_go at hb
      by_cases h : is_batch_full mt ms batch
          ((batch.length + 1) * max slen (f idx)) = true
      · simp only [h, if_true] at hb
        have hne := batch_by_size_go_ne_nil f mt ms m rest
          (batch.drop (max (m * (batch.length / m)) (batch.length % m)) ++ [idx])
          ((sl ++ [f idx]).drop (max (m * (batch.length / m)) (batch.length % m)))
          (if ((sl ++ [f idx]).drop
                (max (m * (batch.length / m)) (batch.length % m))).length > 0 then
             listMax ((sl ++ [f idx]).drop
               (max (m * (batch.length / m)) (batch.length % m))) else 0)
          (by simp)
        cases hg : batch_by_size_go f mt ms m
            (batch.drop (max (m * (batch.length / m)) (batch.length % m)) ++ [idx])
            ((sl ++ [f idx]).drop (max (m * (batch.length / m)) (batch.length % m)))
            (if ((sl ++ [f idx]).drop
                  (max (m * (batch.length / m)) (batch.length % m))).length > 0 then
               listMax ((sl ++ [f idx]).drop
                 (max (m * (batch.length / m)) (batch.length % m))) else 0)
            rest with
        | nil => exact absurd hg hne
        | cons c t =>
            rw [hg] at hb
            simp only [List.dropLast_cons₂, List.mem_cons] at hb
            rcases hb with hb | hb
            · subst hb
              rw [List.length_take]
              have hq := Nat.div_add_mod batch.length m
              have hr : batch.length % m < m := Nat.mod_lt _ (by omega)
              rcases le_or_lt m batch.length with hge | hlt
              · left
                have h1 : batch.length % m ≤ m * (batch.length / m) := by
                  have hd : 1 ≤ batch.length / m := by
                    rw [Nat.le_div_iff_mul_le (by omega : 0 < m)]; omega
                  have hmul : m * 1 ≤ m * (batch.length / m) :=
                    Nat.mul_le_mul_left m hd
                  omega
                rw [Nat.max_eq_left h1]
                have h2 : m * (batch.length / m) ≤ batch.length := by omega
                rw [Nat.min_eq_left h2]
                exact Nat.mul_mod_right m _
              · right
                have h0 : batch.length / m = 0 := Nat.div_eq_of_lt hlt
                have h1 : batch.length % m = batch.length := Nat.mod_eq_of_lt hlt
                rw [h0, h1]
                simp
                omega
            · rw [← hg] at hb
              exact ih _ _ _ b hb
      · simp only [h, Bool.false_eq_true, if_false] at hb
        exact ih _ _ _ b hb

/-- C6 counterexample: with max_sentences = 1 and
required_batch_size_multiple = 2 on input [0, 1], the first (non-final)
yielded batch is [0], whose length 1 is not a multiple of 2, refuting the
claim that every non-final batch length is an exact multiple. -/
theorem batch_by_size_multiple_cex :
    ∃ b ∈ (batch_by_size [0, 1] (fun _ => 1) none (some 1) 2).dropLast,
      ¬ b.length % 2 = 0 := by decide

/-- C6 (amended): for required_batch_size_multiple >= 1, every batch
yielded by batch_by_size other than the final one has a length that is
either an exact multiple of the required multiple, or strictly smaller
than one multiple (the source keeps a whole closed batch smaller than the
multiple rather than emitting an empty batch). -/
theorem batch_by_size_multiple_amended (indices : List Nat) (f : Nat → Nat)
    (mt ms : Option Nat) (m : Nat) (hm : 1 ≤ m) :
    ∀ b ∈ (batch_by_size indices f mt ms m).dropLast,
      b.length % m = 0 ∨ b.length < m :=
  batch_by_size_go_multiple f mt ms m hm indices [] [] 0

theorem batch_by_size_multiple_amended_witness :
    ([0, 1] : List Nat).length % 2 = 0 ∨ ([0, 1] : List Nat).length < 2 :=
  batch_by_size_multiple_amended [0, 1, 2, 3, 4, 5, 6, 7, 8, 9]
    (fun i => i % 3 + 1) (some 6) none 2 (by decide) [0, 1] (by decide)

theorem is_batch_full_some_iff (mt ms : Nat) (batch : List Nat) (nt : Nat) :
    is_batch_full (some mt) (some ms) batch nt = true ↔
      batch.length ≠ 0 ∧ (batch.length = ms ∨ mt < nt) := by
  unfold is_batch_full
  by_cases h1 : batch.length = 0
  · simp [h1]
  · simp only [h1, if_false]
    by_cases h2 : batch.length = ms
    · have hc : (some batch.length : Option Nat) = some ms := by rw [h2]
      rw [if_pos hc]
      exact iff_of_true rfl ⟨h1, Or.inl h2⟩
    · have h2' : ¬ (some batch.length : Option Nat) = some ms := by
        simpa using h2
      rw [if_neg h2']
      by_cases h3 : mt < nt
      · simp [h1, h2, h3]
      · simp [h1, h2, h3]

theorem batch_by_size_go_budget (f : Nat → Nat) (mt ms : Nat)
    (hms : 1 ≤ ms) :
    ∀ (rest batch : List Nat),
      batch.length ≤ ms →
      (2 ≤ batch.length → batch.length * listMax (batch.map f) ≤ mt) →
      ∀ b ∈ (batch_by_size_go f (some mt) (some ms) 1 batch (batch.map f)
          (listMax (batch.map f)) rest).dropLast,
        b.length ≤ ms ∧
        (b.length * listMax (b.map f) ≤ mt ∨
         (b.length = 1 ∧ mt < listMax (b.map f))) := by
  intro rest
  induction rest with
  | nil =>
      intro batch hlen htok b hb
      by_cases h : batch.length > 0 <;> simp [batch_by_size_go, h] at hb
  | cons idx rest ih =>
      intro batch hlen htok b hb
      unfold batch_by_size_go at hb
      by_cases h : is_batch_full (some mt) (some ms) batch
          ((batch.length + 1) * max (listMax (batch.map f)) (f idx)) = true
      · simp only [h, if_true] at hb
        -- with bsz_mult = 1 the truncation is the whole batch
        have hmod : max (1 * (batch.length / 1)) (batch.length % 1) =
            batch.length := by omega
        rw [hmod] at hb
        rw [List.take_length, List.drop_length, List.nil_append] at hb
        have hsl : ((batch.map f ++ [f idx]).drop batch.length) = [f idx] := by
          have hlm : batch.length = (batch.map f).length :=
            (List.length_map _ _).symm
          rw [hlm, List.drop_left]
        rw [hsl] at hb
        have hif : (if ([f idx] : List Nat).length > 0 then listMax [f idx]
            else 0) = f idx := by simp
        rw [hif] at hb
        have hfull := (is_batch_full_some_iff mt ms batch _).mp h
        have hne : batch_by_size_go f (some mt) (some ms) 1 [idx]
            [f idx] (f idx) rest ≠ [] :=
          batch_by_size_go_ne_nil f (some mt) (some ms) 1 rest [idx] [f idx]
            (f idx) (by simp)
        cases hg : batch_by_size_go f (some mt) (some ms) 1 [idx]
            [f idx] (f idx) rest with
        | nil => exact absurd hg hne
        | cons c t =>
            rw [hg] at hb
            simp only [List.dropLast_cons₂, List.mem_cons] at hb
            rcases hb with hb | hb
            · subst hb
              refine ⟨hlen, ?_⟩
              rcases Nat.lt_or_ge 1 b.length with h2 | h2
              · exact Or.inl (htok h2)
              · have h1 : b.length = 1 := by
                  have := hfull.1
                  omega
                rcases le_or_lt (listMax (b.map f)) mt with hle | hgt
                · exact Or.inl (by rw [h1, Nat.one_mul]; exact hle)
                · exact Or.inr ⟨h1, hgt⟩
            · rw [← hg] at hb
              exact ih [idx] (by simpa using hms) (by simp) b (by simpa using hb)
      · simp only [h, Bool.false_eq_true, if_false] at hb
        have hmap : batch.map f ++ [f idx] = (batch ++ [idx]).map f := by
          simp
        have hmax : max (listMax (batch.map f)) (f idx) =
            listMax ((batch ++ [idx]).map f) := by
          rw [← hmap, listMax_append, listMax_singleton]
        rw [hmap, hmax] at hb
        have hnotfull := (not_iff_not.mpr
          (is_batch_full_some_iff mt ms batch
            ((batch.length + 1) * max (listMax (batch.map f)) (f idx)))).mp
          (by simpa using h)
        push_neg at hnotfull
        have hlen' : (batch ++ [idx]).length ≤ ms := by
          rcases Nat.eq_zero_or_pos batch.length with h0 | hpos
          · simp only [List.length_append, List.length_singleton]
            omega
          · have hne := (hnotfull (by omega)).1
            simp only [List.length_append, List.length_singleton]
            omega
        have htok' : 2 ≤ (batch ++ [idx]).length →
            (batch ++ [idx]).length * listMax ((batch ++ [idx]).map f) ≤ mt := by
          intro h2
          have hpos : batch.length ≠ 0 := by
            simp only [List.length_append, List.length_singleton] at h2
            omega
          have hle := (hnotfull hpos).2
          rw [← hmax]
          simpa using hle
        exact ih (batch ++ [idx]) hlen' htok' b hb

/-- C2 counterexample: with max_tokens = 100, max_sentences = 100 and
required_batch_size_multiple = 8, on twelve indices where index 10 has
size 50 and all others size 1, the second (non-final, non-singleton)
yielded batch is [8, 9, 10]: 3 sentences of maximal size 50, so
3 * 50 = 150 > 100 exceeds the token budget, refuting the claimed budget
respect (the multiple-truncation carry regroups old small examples with a
new large one without rechecking the budget). -/
theorem batch_by_size_budget_cex :
    ∃ b ∈ (batch_by_size (List.range 12) (fun i => if i = 10 then 50 else 1)
        (some 100) (some 100) 8).dropLast,
      ¬ (b.length ≤ 100 ∧
         (b.length * listMax (b.map (fun i => if i = 10 then 50 else 1)) ≤ 100 ∨
          (b.length = 1 ∧
           100 < listMax (b.map (fun i => if i = 10 then 50 else 1))))) := by
  decide

/-- C2 (amended): when max_tokens and max_sentences >= 1 are given and
required_batch_size_multiple = 1, every batch yielded by batch_by_size
except a possible trailing batch satisfies len(batch) <= max_sentences
and len(batch) * (maximum per-example size within the batch) <=
max_tokens, unless the batch holds exactly one oversized example whose
size alone exceeds max_tokens. -/
theorem batch_by_size_budget_amended (indices : List Nat) (f : Nat → Nat)
    (mt ms : Nat) (hms : 1 ≤ ms) :
    ∀ b ∈ (batch_by_size indices f (some mt) (some ms) 1).dropLast,
      b.length ≤ ms ∧
      (b.length * listMax (b.map f) ≤ mt ∨
       (b.length = 1 ∧ mt < listMax (b.map f))) :=
  batch_by_size_go_budget f mt ms hms indices [] (by simp) (by simp)

theorem batch_by_size_budget_amended_witness :
    ([0, 1] : List Nat).length ≤ 3 ∧
    (([0, 1] : List Nat).length *
        listMax (([0, 1] : List Nat).map (fun i => i % 3 + 1)) ≤ 6 ∨
     (([0, 1] : List Nat).length = 1 ∧
      6 < listMax (([0, 1] : List Nat).map (fun i => i % 3 + 1)))) :=
  batch_by_size_budget_amended [0, 1, 2, 3, 4, 5, 6, 7, 8, 9]
    (fun i => i % 3 + 1) 6 3 (by decide) [0, 1] (by decide)

/-- C5: ShardedIterator shape.  For a valid shard descriptor
(shard_id < num_shards), the shard yields exactly
ceil(length / num_shards) items (written (length + num_shards - 1) /
num_shards); the k-th yielded item is the underlying element at position
shard_id + k * num_shards when that position exists and the fill sentinel
otherwise; and every valid shard of the same sequence reports the same
length. -/
theorem sharded_iterator_shape {α : Type} (l : List α) (n sid : Nat)
    (fill : α) (h : sid < n) :
    (shardedList l n sid fill).length = (l.length + n - 1) / n ∧
    (∀ k, k < (l.length + n - 1) / n →
       (shardedList l n sid fill).get? k =
         some ((l.get? (sid + k * n)).getD fill)) ∧
    (∀ sid2, sid2 < n →
       (shardedList l n sid2 fill).length =
         (shardedList l n sid fill).length) := by
  have hn : 1 ≤ n := by omega
  refine ⟨?_, ?_, ?_⟩
  · rw [shardedList_length l n sid fill hn, shardedLen_eq_ceil _ n hn]
  · intro k hk
    apply shardedList_get? l n sid fill hn k
    rw [shardedLen_eq_ceil _ n hn]
    exact hk
  · intro sid2 h2
    rw [shardedList_length l n sid fill hn, shardedList_length l n sid2 fill hn]

theorem sharded_iterator_shape_witness :
    (shardedList [10, 20, 30, 40, 50, 60, 70] 3 2 (99 : Nat)).length =
      (([10, 20, 30, 40, 50, 60, 70] : List Nat).length + 3 - 1) / 3 :=
  (sharded_iterator_shape [10, 20, 30, 40, 50, 60, 70] 3 2 99 (by decide)).1

/-- C10: CountingIterator.skip is total and clamped.  Skipping is a total
function (the Python islice consumption absorbs exhaustion without
raising); for a consistent iterator state the new count is
min(old count + n, total length), the underlying sequence is untouched,
and has_next stays consistent with the true remaining element count. -/
theorem counting_iterator_skip_clamped {α : Type} (it : CountingIterator α)
    (n : Nat) (h : it.count ≤ it.iterable.length) :
    (it.skip n).count = min (it.count + n) it.iterable.length ∧
    (it.skip n).iterable = it.iterable ∧
    ((it.skip n).has_next = true ↔ (it.skip n).count < it.iterable.length) := by
  refine ⟨CountingIterator.skip_count n it h,
    CountingIterator.skip_iterable n it, ?_⟩
  simp [CountingIterator.has_next, CountingIterator.len,
    CountingIterator.skip_iterable]

theorem counting_iterator_skip_clamped_witness :
    ((⟨[1, 2, 3], 0⟩ : CountingIterator Nat).skip 5).count =
      min ((⟨[1, 2, 3], 0⟩ : CountingIterator Nat).count + 5)
        (⟨[1, 2, 3], 0⟩ : CountingIterator Nat).iterable.length :=
  (counting_iterator_skip_clamped _ 5 (by decide)).1

theorem CountingIterator.skip_new {α : Type} (l : List α) (k : Nat)
    (hk : k ≤ l.length) :
    (CountingIterator.new l).skip k = ⟨l, k⟩ := by
  have h1 := CountingIterator.skip_iterable k (CountingIterator.new l)
  have h2 := CountingIterator.skip_count k (CountingIterator.new l)
    (by simp [CountingIterator.new])
  cases h : (CountingIterator.new l).skip k with
  | mk itb cnt =>
      rw [h] at h1 h2
      simp [CountingIterator.new] at h1 h2
      subst h1
      have hc : cnt = k := by omega
      rw [hc]

theorem get_iterator_for_epoch_fst {S : Type} (rng : RNG S)
    (e : EpochBatchIterator) (ep : Nat) (g : S) :
    (e.get_iterator_for_epoch rng ep true g).1 =
      CountingIterator.new (shardedList
        (rng.shuffle_fn e.frozen_batches (rng.seed_fn (e.seed + ep))).1
        e.num_shards e.shard_id []) := rfl

theorem get_iterator_for_epoch_fst_g_indep {S : Type} (rng : RNG S)
    (e : EpochBatchIterator) (ep : Nat) (sh : Bool) (g g' : S) :
    (e.get_iterator_for_epoch rng ep sh g).1 =
      (e.get_iterator_for_epoch rng ep sh g').1 := by
  cases sh <;> rfl

theorem get_iterator_for_epoch_count {S : Type} (rng : RNG S)
    (e : EpochBatchIterator) (ep : Nat) (sh : Bool) (g : S) :
    (e.get_iterator_for_epoch rng ep sh g).1.count = 0 := by
  cases sh <;> rfl

theorem next_epoch_itr_none_eq {S : Type} (rng : RNG S)
    (e : EpochBatchIterator) (sh : Bool) (g : S)
    (hn : e._next_epoch_itr = none) :
    (e.next_epoch_itr rng sh g).1 =
      { e with epoch := e.epoch + 1
               _cur_epoch_itr := some (e.get_iterator_for_epoch rng
                 (e.epoch + 1) sh g).1 } := by
  unfold EpochBatchIterator.next_epoch_itr
  rw [hn]

theorem next_epoch_itr_some_eq {S : Type} (rng : RNG S)
    (e : EpochBatchIterator) (sh : Bool) (g : S)
    (it : CountingIterator (List Nat)) (hn : e._next_epoch_itr = some it) :
    (e.next_epoch_itr rng sh g).1 =
      { e with _cur_epoch_itr := some it, _next_epoch_itr := none } := by
  unfold EpochBatchIterator.next_epoch_itr
  rw [hn]

theorem load_state_dict_eq_of_overflow {S : Type} (rng : RNG S)
    (e : EpochBatchIterator) (sd : StateDict) (g : S)
    (hover : (({ e with epoch := sd.epoch } :
        EpochBatchIterator).get_iterator_for_epoch rng sd.epoch
        (sd.shuffle.getD true) g).1.len ≤ sd.iterations_in_epoch) :
    (e.load_state_dict rng sd g).1 = { e with epoch := sd.epoch } := by
  unfold EpochBatchIterator.load_state_dict
  by_cases hp : 0 < sd.iterations_in_epoch
  · simp only [if_pos hp]
    rw [if_neg (by omega)]
  · simp only [if_neg hp]

theorem load_state_dict_eq_of_lt {S : Type} (rng : RNG S)
    (e : EpochBatchIterator) (sd : StateDict) (g : S)
    (hp : 0 < sd.iterations_in_epoch)
    (hlt : sd.iterations_in_epoch <
      (({ e with epoch := sd.epoch } :
         EpochBatchIterator).get_iterator_for_epoch rng sd.epoch
         (sd.shuffle.getD true) g).1.len) :
    (e.load_state_dict rng sd g).1 =
      { e with epoch := sd.epoch
               _next_epoch_itr := some ((({ e with epoch := sd.epoch } :
                 EpochBatchIterator).get_iterator_for_epoch rng sd.epoch
                 (sd.shuffle.getD true) g).1.skip sd.iterations_in_epoch) }
      := by
  unfold EpochBatchIterator.load_state_dict
  rw [if_pos hp, if_pos hlt]

/-- C9: the numpy_seed context manager frames the global generator state.
Running a body under numpy_seed with a concrete seed leaves the global
state exactly as it was before the call (the restore sits in a finally
block, so instantiating the body's result type with Except models a
raising body and the state is still restored), with a null (None) seed
the wrapper changes nothing at all, and consequently deriving an epoch
iterator with shuffle=true returns the global state unchanged. -/
theorem numpy_seed_frame {S : Type} (rng : RNG S) (g : S) :
    (∀ (A : Type) (sd : Nat) (body : S → A × S),
        (numpy_seed rng.seed_fn (some sd) body g).2 = g) ∧
    (∀ (E A : Type) (sd : Nat) (body : S → Except E A × S),
        (numpy_seed rng.seed_fn (some sd) body g).2 = g) ∧
    (∀ (A : Type) (body : S → A × S),
        numpy_seed rng.seed_fn none body g = body g) ∧
    (∀ (e : EpochBatchIterator) (ep : Nat),
        (e.get_iterator_for_epoch rng ep true g).2 = g) :=
  ⟨fun _ _ _ => rfl, fun _ _ _ _ => rfl, fun _ _ => rfl, fun _ _ => rfl⟩

/-- C8: epoch counter discipline.  A freshly constructed
EpochBatchIterator has epoch 0; a next_epoch_itr call with no pending
lookahead increments epoch by exactly one and derives the new epoch's
iterator for that incremented epoch; a call that consumes a pending
lookahead installs it as the active iterator, clears the pending slot and
leaves the epoch counter unchanged. -/
theorem epoch_counter_discipline {S : Type} (rng : RNG S)
    (frozen : List (List Nat)) (seed ns sid : Nat) (sh : Bool) :
    (EpochBatchIterator.init frozen seed ns sid).epoch = 0 ∧
    (∀ (e : EpochBatchIterator) (g : S), e._next_epoch_itr = none →
        (e.next_epoch_itr rng sh g).1.epoch = e.epoch + 1 ∧
        (e.next_epoch_itr rng sh g).1._cur_epoch_itr =
          some (e.get_iterator_for_epoch rng (e.epoch + 1) sh g).1) ∧
    (∀ (e : EpochBatchIterator) (it : CountingIterator (List Nat)) (g : S),
        e._next_epoch_itr = some it →
        (e.next_epoch_itr rng sh g).1.epoch = e.epoch ∧
        (e.next_epoch_itr rng sh g).1._cur_epoch_itr = some it ∧
        (e.next_epoch_itr rng sh g).1._next_epoch_itr = none) := by
  refine ⟨rfl, ?_, ?_⟩
  · intro e g hn
    rw [next_epoch_itr_none_eq rng e sh g hn]
    exact ⟨rfl, rfl⟩
  · intro e it g hn
    rw [next_epoch_itr_some_eq rng e sh g it hn]
    exact ⟨rfl, rfl, rfl⟩

theorem epoch_counter_discipline_witness :
    ((EpochBatchIterator.init [[0]] 1 1 0).next_epoch_itr exRNG true 0).1.epoch
      = (EpochBatchIterator.init [[0]] 1 1 0).epoch + 1 :=
  ((epoch_counter_discipline exRNG [[0]] 1 1 0 true).2.1
    (EpochBatchIterator.init [[0]] 1 1 0) 0 rfl).1

/-- C7 counterexample: loading a state with iterations_in_epoch = 0 on a
fresh iterator over a two-batch plan stores no pending lookahead, even
though 0 is strictly below the derived epoch iterator's length 2; this
refutes the claim that for every iterations_in_epoch strictly below that
length a fast-forwarded lookahead is stored. -/
theorem load_state_dict_skip_cex :
    ((EpochBatchIterator.init [[0], [1]] 1 1 0).load_state_dict exRNG
        { epoch := 1, iterations_in_epoch := 0, shuffle := none }
        0).1._next_epoch_itr = none ∧
    0 < (({ EpochBatchIterator.init [[0], [1]] 1 1 0 with epoch := 1 } :
        EpochBatchIterator).get_iterator_for_epoch exRNG 1 true 0).1.len := by
  decide

/-- C7 (amended): load_state_dict never raises; when iterations_in_epoch
is at least the derived epoch iterator's length (or is zero), no pending
lookahead is stored and the next next_epoch_itr call derives a fresh
iterator for the following epoch starting from its beginning (count 0),
neither hanging nor duplicating a batch; when 0 < iterations_in_epoch is
strictly below that length, the stored lookahead is the derived iterator
fast-forwarded by exactly iterations_in_epoch batches. -/
theorem load_state_dict_skip_normalized {S : Type} (rng : RNG S)
    (e : EpochBatchIterator) (sd : StateDict) (g g2 : S) (sh2 : Bool)
    (hpend : e._next_epoch_itr = none) :
    ((({ e with epoch := sd.epoch } :
        EpochBatchIterator).get_iterator_for_epoch rng sd.epoch
        (sd.shuffle.getD true) g).1.len ≤ sd.iterations_in_epoch →
      (e.load_state_dict rng sd g).1._next_epoch_itr = none ∧
      ∃ it : CountingIterator (List Nat),
        ((e.load_state_dict rng sd g).1.next_epoch_itr rng sh2
          g2).1._cur_epoch_itr = some it ∧
        it.count = 0 ∧
        it.iterable = (({ e with epoch := sd.epoch } :
          EpochBatchIterator).get_iterator_for_epoch rng (sd.epoch + 1)
          sh2 g2).1.iterable) ∧
    (0 < sd.iterations_in_epoch →
      sd.iterations_in_epoch <
        (({ e with epoch := sd.epoch } :
          EpochBatchIterator).get_iterator_for_epoch rng sd.epoch
          (sd.shuffle.getD true) g).1.len →
      ∃ it : CountingIterator (List Nat),
        (e.load_state_dict rng sd g).1._next_epoch_itr = some it ∧
        it.count = sd.iterations_in_epoch ∧
        it.iterable = (({ e with epoch := sd.epoch } :
          EpochBatchIterator).get_iterator_for_epoch rng sd.epoch
          (sd.shuffle.getD true) g).1.iterable) := by
  constructor
  · intro hover
    rw [load_state_dict_eq_of_overflow rng e sd g hover]
    have hpend' : ({ e with epoch := sd.epoch } :
        EpochBatchIterator)._next_epoch_itr = none := hpend
    refine ⟨hpend', ?_⟩
    rw [next_epoch_itr_none_eq rng _ sh2 g2 hpend']
    exact ⟨_, rfl, get_iterator_for_epoch_count rng _ _ sh2 g2, rfl⟩
  · intro hp hlt
    rw [load_state_dict_eq_of_lt rng e sd g hp hlt]
    refine ⟨_, rfl, ?_, ?_⟩
    · rw [CountingIterator.skip_count _ _ (by
        rw [get_iterator_for_epoch_count]; exact Nat.zero_le _)]
      rw [get_iterator_for_epoch_count]
      have hlen : (({ e with epoch := sd.epoch } :
          EpochBatchIterator).get_iterator_for_epoch rng sd.epoch
          (sd.shuffle.getD true) g).1.len =
          (({ e with epoch := sd.epoch } :
          EpochBatchIterator).get_iterator_for_epoch rng sd.epoch
          (sd.shuffle.getD true) g).1.iterable.length := rfl
      rw [hlen] at hlt
      omega
    · exact CountingIterator.skip_iterable _ _

theorem load_state_dict_skip_normalized_witness :
    ∃ it : CountingIterator (List Nat),
      ((EpochBatchIterator.init [[0], [1]] 1 1 0).load_state_dict exRNG
          { epoch := 1, iterations_in_epoch := 1, shuffle := none }
          0).1._next_epoch_itr = some it ∧
      it.count = 1 ∧
      it.iterable = (({ EpochBatchIterator.init [[0], [1]] 1 1 0 with
          epoch := 1 } : EpochBatchIterator).get_iterator_for_epoch exRNG 1
          true 0).1.iterable :=
  (load_state_dict_skip_normalized exRNG
      (EpochBatchIterator.init [[0], [1]] 1 1 0)
      { epoch := 1, iterations_in_epoch := 1, shuffle := none }
      0 0 true rfl).2 (by decide) (by decide)

theorem next_epoch_itr_pending_none {S : Type} (rng : RNG S)
    (e : EpochBatchIterator) (sh : Bool) (g : S)
    (hn : e._next_epoch_itr = none) :
    (e.next_epoch_itr rng sh g).1._next_epoch_itr = none := by
  rw [next_epoch_itr_none_eq rng e sh g hn]
  exact hn

theorem advance_state_indep {S : Type} (rng : RNG S) (sh : Bool) :
    ∀ (gs1 gs2 : List S) (e : EpochBatchIterator),
      e._next_epoch_itr = none → gs1.length = gs2.length →
      e.advance rng sh gs1 = e.advance rng sh gs2 := by
  intro gs1
  induction gs1 with
  | nil =>
      intro gs2 e hn hlen
      cases gs2 with
      | nil => rfl
      | cons g2 t2 => simp at hlen
  | cons g t ih =>
      intro gs2 e hn hlen
      cases gs2 with
      | nil => simp at hlen
      | cons g2 t2 =>
          simp only [EpochBatchIterator.advance]
          have hstep : (e.next_epoch_itr rng sh g).1 =
              (e.next_epoch_itr rng sh g2).1 := by
            rw [next_epoch_itr_none_eq rng e sh g hn,
                next_epoch_itr_none_eq rng e sh g2 hn,
                get_iterator_for_epoch_fst_g_indep rng e (e.epoch + 1) sh g g2]
          rw [hstep]
          exact ih t2 _ (next_epoch_itr_pending_none rng e sh g2 hn)
            (by simpa using hlen)

/-- C4: determinism of EpochBatchIterator.  Advancing two iterators built
over the same frozen plan with identical (seed, num_shards, shard_id)
through the same number of next_epoch_itr calls with the same shuffle
flag yields identical iterator states — in particular identical batch
sequences — no matter what the ambient global generator state is at each
call (so the sequence is reproducible across process restarts); moreover
the shuffled order derived for an epoch is a function only of
(seed + epoch) and the frozen plan. -/
theorem epoch_iterator_deterministic {S : Type} (rng : RNG S)
    (frozen : List (List Nat)) (seed ns sid : Nat) (sh : Bool)
    (gs1 gs2 : List S) (hsh : sid < ns) (hlen : gs1.length = gs2.length) :
    (EpochBatchIterator.init frozen seed ns sid).advance rng sh gs1 =
      (EpochBatchIterator.init frozen seed ns sid).advance rng sh gs2 ∧
    (∀ (s1 e1 s2 e2 : Nat) (g1 g2 : S), s1 + e1 = s2 + e2 →
      ((EpochBatchIterator.init frozen s1 ns sid).get_iterator_for_epoch
        rng e1 true g1).1.iterable =
      ((EpochBatchIterator.init frozen s2 ns sid).get_iterator_for_epoch
        rng e2 true g2).1.iterable) := by
  constructor
  · exact advance_state_indep rng sh gs1 gs2 _ rfl hlen
  · intro s1 e1 s2 e2 g1 g2 hsum
    rw [get_iterator_for_epoch_fst, get_iterator_for_epoch_fst]
    show shardedList (rng.shuffle_fn frozen (rng.seed_fn (s1 + e1))).1
        ns sid [] =
      shardedList (rng.shuffle_fn frozen (rng.seed_fn (s2 + e2))).1 ns sid []
    rw [hsum]

theorem epoch_iterator_deterministic_witness :
    (EpochBatchIterator.init [[0], [1]] 1 1 0).advance exRNG true [5, 7] =
      (EpochBatchIterator.init [[0], [1]] 1 1 0).advance exRNG true [9, 11] :=
  (epoch_iterator_deterministic exRNG [[0], [1]] 1 1 0 true [5, 7] [9, 11]
    (by decide) (by decide)).1

theorem resume_scenario_spec {S : Type} (rng : RNG S)
    (frozen : List (List Nat)) (seed ns sid k : Nat) (g0 g1 g2 : S)
    (hk1 : 1 ≤ k)
    (hk : k < (shardedList (rng.shuffle_fn frozen
        (rng.seed_fn (seed + 1))).1 ns sid []).length) :
    EpochBatchIterator.resume_scenario rng frozen seed ns sid true k
        g0 g1 g2 =
      ({ frozen_batches := frozen
         seed := seed
         num_shards := ns
         shard_id := sid
         epoch := 1
         _cur_epoch_itr := some ⟨shardedList (rng.shuffle_fn frozen
           (rng.seed_fn (seed + 1))).1 ns sid [], k⟩
         _next_epoch_itr := none },
       { frozen_batches := frozen
         seed := seed
         num_shards := ns
         shard_id := sid
         epoch := 1
         _cur_epoch_itr := some ⟨shardedList (rng.shuffle_fn frozen
           (rng.seed_fn (seed + 1))).1 ns sid [], k⟩
         _next_epoch_itr := none }) := by
  have hskip : ({ iterable := shardedList (rng.shuffle_fn frozen
        (rng.seed_fn (seed + 1))).1 ns sid [], count := 0 } :
      CountingIterator (List Nat)).skip k =
      ⟨shardedList (rng.shuffle_fn frozen (rng.seed_fn (seed + 1))).1
        ns sid [], k⟩ :=
    CountingIterator.skip_new _ k (le_of_lt hk)
  have hk0 : 0 < k := hk1
  unfold EpochBatchIterator.resume_scenario
  simp only [EpochBatchIterator.init, EpochBatchIterator.next_epoch_itr,
    EpochBatchIterator.get_iterator_for_epoch, numpy_seed,
    EpochBatchIterator.consume, CountingIterator.consume_snd,
    EpochBatchIterator.state_dict, EpochBatchIterator.iterations_in_epoch,
    EpochBatchIterator.load_state_dict, CountingIterator.len,
    CountingIterator.new, Option.getD, hskip, hk0, hk, if_true]

/-- C3 counterexample: two concrete runs refute resume idempotence as
stated.  First, with shuffle=true and k = 0 (0 is strictly below the
epoch's batch count 2), the snapshot {epoch 1, iterations 0} makes
load_state_dict store no lookahead, so the resumed next_epoch_itr call
advances to epoch 2, whose differently shuffled order disagrees with the
uninterrupted remainder of epoch 1.  Second, with shuffle=false and
k = 1, load_state_dict re-derives the epoch with its default shuffle=True
(state_dict never records the shuffle flag), so the resumed order is the
shuffled plan instead of the frozen order. -/
theorem resume_idempotence_cex :
    (EpochBatchIterator.resume_scenario exRNG [[0], [1]] 1 1 0 true 0
        0 0 0).2.cur_remaining ≠
      (EpochBatchIterator.resume_scenario exRNG [[0], [1]] 1 1 0 true 0
        0 0 0).1.cur_remaining ∧
    (EpochBatchIterator.resume_scenario exRNG [[0], [1]] 2 1 0 false 1
        0 0 0).2.cur_remaining ≠
      (EpochBatchIterator.resume_scenario exRNG [[0], [1]] 2 1 0 false 1
        0 0 0).1.cur_remaining := by
  decide

/-- C3 (amended): resume idempotence for shuffle=true and 1 <= k.  For
every frozen batch plan, seed and shard descriptor, consuming k batches
(with 1 <= k strictly below the epoch's batch count) from the first
next_epoch_itr(shuffle=true) run, snapshotting state_dict, building a
fresh EpochBatchIterator from the same constructor arguments, loading the
snapshot and calling next_epoch_itr again resumes with exactly the
remaining (total - k) batches of the same epoch in the same order as the
uninterrupted run. -/
theorem resume_idempotence_shuffled {S : Type} (rng : RNG S)
    (frozen : List (List Nat)) (seed ns sid k : Nat) (g0 g1 g2 : S)
    (hsh : sid < ns) (hk1 : 1 ≤ k)
    (hk : k < ((EpochBatchIterator.init frozen seed ns
        sid).get_iterator_for_epoch rng 1 true g0).1.len) :
    (EpochBatchIterator.resume_scenario rng frozen seed ns sid true k
        g0 g1 g2).2.cur_remaining =
      (EpochBatchIterator.resume_scenario rng frozen seed ns sid true k
        g0 g1 g2).1.cur_remaining ∧
    (EpochBatchIterator.resume_scenario rng frozen seed ns sid true k
        g0 g1 g2).2.cur_remaining.length =
      ((EpochBatchIterator.init frozen seed ns
        sid).get_iterator_for_epoch rng 1 true g0).1.len - k := by
  have hk' : k < (shardedList (rng.shuffle_fn frozen
      (rng.seed_fn (seed + 1))).1 ns sid []).length := hk
  rw [resume_scenario_spec rng frozen seed ns sid k g0 g1 g2 hk1 hk']
  constructor
  · rfl
  · simp only [EpochBatchIterator.cur_remaining, CountingIterator.remaining,
      List.length_drop]
    rfl

theorem resume_idempotence_shuffled_witness :
    (EpochBatchIterator.resume_scenario exRNG [[0], [1]] 1 1 0 true 1
        0 0 0).2.cur_remaining =
      (EpochBatchIterator.resume_scenario exRNG [[0], [1]] 1 1 0 true 1
        0 0 0).1.cur_remaining :=
  (resume_idempotence_shuffled exRNG [[0], [1]] 1 1 0 1 0 0 0
    (by decide) (by decide) (by decide)).1

end StackingBERT
